import Mathlib

/-!
The program weton.c: Javanese weekday and pasaran of a Gregorian date.

A shallow embedding of `src/weton.c` and the properties of its arithmetic.

* C `int` values are modelled as unbounded `Int`; the results below are
  therefore about runs in which no intermediate value overflows. A second
  embedding of lines 19 to 22 passes every arithmetic result through a mode
  (exact, 32-bit wrap-around, or overflow-checking) and shows when that
  assumption holds.
* C's `/` and `%` on `int` truncate toward zero (C99 6.5.5), which is
  `Int.tdiv` and `Int.tmod`.
* The statement `w = (m<3?y--,m+=13:m++,d+153*m/5+...)` is embedded operator
  by operator, as functions from a store to a value and an updated store.
-/

namespace Weton

/-! ## C integer arithmetic -/

/-- C's `a / b` on `int`: the quotient truncated toward zero. -/
def cdiv (a b : Int) : Int := Int.tdiv a b

/-- C's `a % b` on `int`: the remainder of the truncating division. -/
def cmod (a b : Int) : Int := Int.tmod a b

/-! ## The store and the expression `w = (...)` of `main` -/

/-- The `int` locals of `main` that the calculation reads or writes
(`p` is declared in the source but never used). -/
structure Vars where
  d : Int
  m : Int
  y : Int
  c : Int
  w : Int
deriving DecidableEq, Repr

/-- A C expression with side effects: its value and the store after it. -/
abbrev CExpr := Vars → Int × Vars

/-- The operand `m<3` (for the bound 3): value 1 or 0, store unchanged. -/
def ltM (k : Int) : CExpr := fun s => (if s.m < k then 1 else 0, s)

/-- The operand `y--`: value is the old `y`, the store has `y - 1`. -/
def postDecY : CExpr := fun s => (s.y, { s with y := s.y - 1 })

/-- The operand `m+=13` (for k = 13): value and stored `m` are `m + k`. -/
def addAssignM (k : Int) : CExpr := fun s => (s.m + k, { s with m := s.m + k })

/-- The operand `m++`: value is the old `m`, the store has `m + 1`. -/
def postIncM : CExpr := fun s => (s.m, { s with m := s.m + 1 })

/-- The comma operator `e1 , e2`: evaluate `e1`, drop its value, then `e2`. -/
def comma (e1 e2 : CExpr) : CExpr := fun s => e2 (e1 s).2

/-- The conditional operator `e1 ? e2 : e3`: `e1` is evaluated first; exactly
one of `e2`, `e3` is evaluated afterwards. -/
def cond (e1 e2 e3 : CExpr) : CExpr := fun s =>
  let r := e1 s
  if r.1 ≠ 0 then e2 r.2 else e3 r.2

/-- The operand `d+153*m/5+15*y+y/4+19*c+c/4+5`, read left to right with
`*` and `/` binding tighter than `+` (so `153*m/5` is `(153*m)/5`). -/
def formula : CExpr := fun s =>
  (s.d + cdiv (153 * s.m) 5 + 15 * s.y + cdiv s.y 4 + 19 * s.c + cdiv s.c 4 + 5, s)

/-- The parenthesised right-hand side of line 22,
`(m<3?y--,m+=13:m++,d+153*m/5+15*y+y/4+19*c+c/4+5)`.
The comma has the lowest precedence and the third operand of `?:` is a
conditional-expression, so it parses as
`((m<3) ? (y--, m+=13) : (m++)) , (d+153*m/5+...)`. -/
def wExpr : CExpr :=
  comma (cond (ltM 3) (comma postDecY (addAssignM 13)) postIncM) formula

/-- The right-hand side `y/100` of line 19, the century. -/
def century (y : Int) : Int := cdiv y 100

/-- The right-hand side `y%100` of line 20, the reduced year. -/
def reducedYear (y : Int) : Int := cmod y 100

/-- Lines 19 to 22 of `main` on the parsed values `d`, `m`, `y`:
`c = y/100; y = y%100; w = (...)`. The result is the final store. The
locals `c` and `w` are written before they are read, so the 0 they start with
here is never observed. -/
def compute (d m y : Int) : Vars :=
  let s0 : Vars := { d := d, m := m, y := y, c := 0, w := 0 }
  let s1 : Vars := { s0 with c := century s0.y }
  let s2 : Vars := { s1 with y := reducedYear s1.y }
  let r := wExpr s2
  { r.2 with w := r.1 }

/-- The value stored in `w` for the date arguments `d`, `m`, `y`. -/
def weton (d m y : Int) : Int := (compute d m y).w

/-- The subscript `w%7` of `dow[w%7]`, as the code computes it. -/
def dowIndex (d m y : Int) : Int := cmod (weton d m y) 7

/-- The subscript `w%5` of `pasaran[w%5]`, as the code computes it. -/
def pasaranIndex (d m y : Int) : Int := cmod (weton d m y) 5

/-! ## The two-step algorithm of the specification -/

/-- The specification's algorithm, written from its words: first a branch that
adjusts month and reduced year, then one unconditional formula, every division
truncating toward zero. -/
def specTwoStep (d m y : Int) : Int :=
  let c := Int.tdiv y 100
  let r := Int.tmod y 100
  if m < 3 then
    d + Int.tdiv (153 * (m + 13)) 5 + 15 * (r - 1) + Int.tdiv (r - 1) 4
      + 19 * c + Int.tdiv c 4 + 5
  else
    d + Int.tdiv (153 * (m + 1)) 5 + 15 * r + Int.tdiv r 4
      + 19 * c + Int.tdiv c 4 + 5

/-! ## Name tables, argument parsing and `main` -/

/-- The table `dow` of line 6. -/
def dow : List String :=
  ["Senen", "Selasa", "Rebo", "Kemis", "Jemuwah", "Setu", "Ngahad"]

/-- The table `pasaran` of line 7. -/
def pasaran : List String := ["Pon", "Wage", "Kliwon", "Legi", "Pahing"]

/-- Array subscripting `tbl[i]` with an `int` subscript: defined only when
`0 ≤ i < length`; any other subscript is an out-of-bounds read (undefined
behaviour), modelled as `none`. -/
def subscript (tbl : List String) (i : Int) : Option String :=
  if 0 ≤ i then tbl[i.toNat]? else none

/-- White space as `isspace` sees it in the C locale:
space, `\t`, `\n`, `\v`, `\f`, `\r`. -/
def isSpace (ch : Char) : Bool :=
  ch.toNat = 32 || (9 ≤ ch.toNat && ch.toNat ≤ 13)

/-- The value of the longest run of decimal digits at the head of the list. -/
def digitsVal (acc : Nat) : List Char → Nat
  | [] => acc
  | ch :: rest =>
    if 48 ≤ ch.toNat && ch.toNat ≤ 57 then digitsVal (10 * acc + (ch.toNat - 48)) rest
    else acc

/-- The C library's `atoi` (not part of this repository), as the C standard
describes it: skip leading white space, read an optional sign, then the
longest run of decimal digits; text with no digits there gives 0. -/
def atoi (s : String) : Int :=
  match s.toList.dropWhile isSpace with
  | [] => 0
  | ch :: rest =>
    if ch.toNat = 45 then -((digitsVal 0 rest : Nat) : Int)
    else if ch.toNat = 43 then ((digitsVal 0 rest : Nat) : Int)
    else ((digitsVal 0 (ch :: rest) : Nat) : Int)

/-- What a run of the program leaves behind: the text written to standard
output and the exit status. -/
structure Outcome where
  stdout : String
  status : Int
deriving DecidableEq, Repr

/-- The function `main` on the argument vector `argv` (with `argv[0]` the
program name, `argc` its length). `none` stands for undefined behaviour
(an out-of-bounds table read). -/
def main (argv : List String) : Option Outcome :=
  if (argv.length : Int) < 4 then
    some { stdout := "Usage: weton DAY MONTH YEAR.\n", status := 1 }
  else
    let d := atoi (argv.getD 1 "")
    let m := atoi (argv.getD 2 "")
    let y := atoi (argv.getD 3 "")
    let w := weton d m y
    match subscript dow (cmod w 7), subscript pasaran (cmod w 5) with
    | some a, some b => some { stdout := "~ " ++ a ++ " " ++ b ++ " ~\n", status := 0 }
    | _, _ => none

/-! ## Lines 19 to 22 in fixed-width arithmetic

The same statements once more, with the exact result of every arithmetic
operation passed through a mode: kept as it is, wrapped to 32 bits, or
rejected when it is not representable as a 32-bit `int`. -/

/-- The least value of a 32-bit `int`. -/
def intMin : Int := -2147483648

/-- The greatest value of a 32-bit `int`. -/
def intMax : Int := 2147483647

/-- A value representable as a 32-bit signed `int`. -/
def inRange (x : Int) : Prop := intMin ≤ x ∧ x ≤ intMax

instance (x : Int) : Decidable (inRange x) := by
  unfold inRange; infer_instance

/-- Two's-complement wrap-around: the value in the 32-bit signed range that
differs from `x` by a multiple of `2^32`. -/
def wrap (x : Int) : Int := (x + 2147483648) % 4294967296 - 2147483648

/-- What becomes of the exact result of one `int` operation. -/
abbrev Mode := Int → Option Int

/-- Unbounded integers: every result is kept. -/
def exact : Mode := fun x => some x

/-- Wrap-around 32-bit arithmetic: every result is reduced modulo `2^32`. -/
def wrapping : Mode := fun x => some (wrap x)

/-- Overflow detection: a result outside the 32-bit signed range stops the
evaluation. -/
def checked : Mode := fun x => if inRange x then some x else none

/-- A C expression with side effects whose evaluation may stop. -/
abbrev MExpr := Vars → Option (Int × Vars)

/-- The operand `m<3` (for the bound 3). -/
def ltMM (k : Int) : MExpr := fun s => some (if s.m < k then 1 else 0, s)

/-- The operand `y--` in a mode. -/
def postDecYM (md : Mode) : MExpr := fun s =>
  (md (s.y - 1)).bind fun v => some (s.y, { s with y := v })

/-- The operand `m+=13` (for k = 13) in a mode. -/
def addAssignMM (md : Mode) (k : Int) : MExpr := fun s =>
  (md (s.m + k)).bind fun v => some (v, { s with m := v })

/-- The operand `m++` in a mode. -/
def postIncMM (md : Mode) : MExpr := fun s =>
  (md (s.m + 1)).bind fun v => some (s.m, { s with m := v })

/-- The comma operator on expressions that may stop. -/
def commaM (e1 e2 : MExpr) : MExpr := fun s => (e1 s).bind fun r => e2 r.2

/-- The conditional operator on expressions that may stop. -/
def condM (e1 e2 e3 : MExpr) : MExpr := fun s =>
  (e1 s).bind fun r => if r.1 ≠ 0 then e2 r.2 else e3 r.2

/-- The operand `d+153*m/5+15*y+y/4+19*c+c/4+5` in a mode, one step for each
operator of the expression tree
`((((((d + (153*m)/5) + 15*y) + y/4) + 19*c) + c/4) + 5)`. -/
def formulaM (md : Mode) : MExpr := fun s =>
  (md (153 * s.m)).bind fun t1 =>
  (md (cdiv t1 5)).bind fun t2 =>
  (md (s.d + t2)).bind fun t3 =>
  (md (15 * s.y)).bind fun t4 =>
  (md (t3 + t4)).bind fun t5 =>
  (md (cdiv s.y 4)).bind fun t6 =>
  (md (t5 + t6)).bind fun t7 =>
  (md (19 * s.c)).bind fun t8 =>
  (md (t7 + t8)).bind fun t9 =>
  (md (cdiv s.c 4)).bind fun t10 =>
  (md (t9 + t10)).bind fun t11 =>
  (md (t11 + 5)).bind fun t12 =>
  some (t12, s)

/-- The right-hand side of line 22 in a mode, parsed as `wExpr` is. -/
def wExprM (md : Mode) : MExpr :=
  commaM (condM (ltMM 3) (commaM (postDecYM md) (addAssignMM md 13)) (postIncMM md))
    (formulaM md)

/-- Lines 19 to 22 of `main` in a mode: `c = y/100; y = y%100; w = (...)`. -/
def computeM (md : Mode) (d m y : Int) : Option Vars :=
  (md (cdiv y 100)).bind fun c =>
  (md (cmod y 100)).bind fun r =>
  (wExprM md { d := d, m := m, y := r, c := c, w := 0 }).bind fun res =>
  some { res.2 with w := res.1 }

/-! ## The proleptic Gregorian calendar (reference model)

Not part of `weton.c`: the calendar against which the weekday and the day
count of a date are measured. Years, months and days are natural numbers;
year 1 starts on Monday 1 January. -/

namespace Gregorian

/-- The Gregorian leap-year rule. -/
def isLeapYear (y : Nat) : Bool :=
  y % 4 = 0 && (y % 100 != 0 || y % 400 = 0)

/-- The number of days of year `y`. -/
def daysInYear (y : Nat) : Nat := if isLeapYear y then 366 else 365

/-- The number of days of month `m` of year `y`. -/
def daysInMonth (m y : Nat) : Nat :=
  if m = 2 then (if isLeapYear y then 29 else 28)
  else if m = 4 ∨ m = 6 ∨ m = 9 ∨ m = 11 then 30
  else 31

/-- A valid date: year at least 1, month in 1..12, day in 1..length of month. -/
def validDate (d m y : Nat) : Prop :=
  1 ≤ y ∧ 1 ≤ m ∧ m ≤ 12 ∧ 1 ≤ d ∧ d ≤ daysInMonth m y

instance (d m y : Nat) : Decidable (validDate d m y) := by
  unfold validDate; infer_instance

/-- The total length of the years `1, ..., y - 1`. -/
def daysBeforeYear : Nat → Nat
  | 0 => 0
  | k + 1 => if k = 0 then 0 else daysBeforeYear k + daysInYear k

/-- The total length of the months `1, ..., m - 1` of year `y`. -/
def daysBeforeMonth : Nat → Nat → Nat
  | 0, _ => 0
  | k + 1, y => if k = 0 then 0 else daysBeforeMonth k y + daysInMonth k y

/-- The number of days elapsed from 1 January of year 1 to the date. -/
def daysSinceEpoch (d m y : Nat) : Nat :=
  daysBeforeYear y + daysBeforeMonth m y + (d - 1)

/-- The calendar day that follows a date. -/
def nextDay (d m y : Nat) : Nat × Nat × Nat :=
  if d < daysInMonth m y then (d + 1, m, y)
  else if m < 12 then (1, m + 1, y)
  else (1, 1, y + 1)

/-- The day of the week of a date, 0 = Monday, ..., 6 = Sunday. -/
def weekday (d m y : Nat) : Nat := daysSinceEpoch d m y % 7

end Gregorian

open Gregorian

/-! ## Arithmetic helpers -/

theorem cdiv_of_nonneg {a b : Int} (ha : 0 ≤ a) (hb : 0 ≤ b) : cdiv a b = a / b :=
  Int.tdiv_eq_ediv ha hb

theorem cmod_of_nonneg {a b : Int} (ha : 0 ≤ a) (hb : 0 ≤ b) : cmod a b = a % b :=
  Int.tmod_eq_emod ha hb

theorem cdiv_of_neg {a b : Int} (ha : a < 0) (hb : 0 ≤ b) : cdiv a b = -((-a) / b) := by
  have h : cdiv a b = -(Int.tdiv (-a) b) := by
    unfold cdiv
    rw [Int.neg_tdiv, Int.neg_neg]
  rw [h, Int.tdiv_eq_ediv (by omega) hb]

theorem cmod_of_neg {a b : Int} (ha : a < 0) (hb : 0 ≤ b) : cmod a b = -((-a) % b) := by
  have h1 := Int.tmod_add_tdiv a b
  have h2 := cdiv_of_neg ha hb
  unfold cdiv at h2
  unfold cmod
  have h3 := Int.emod_add_ediv (-a) b
  rw [h2] at h1
  have h4 : b * -(-a / b) = -(b * (-a / b)) := by ring
  rw [h4] at h1
  omega

/-- The value of `w` with the store operations carried out. -/
theorem weton_unfold (d m y : Int) :
    weton d m y =
      if m < 3 then
        d + cdiv (153 * (m + 13)) 5 + 15 * (cmod y 100 - 1) + cdiv (cmod y 100 - 1) 4
          + 19 * cdiv y 100 + cdiv (cdiv y 100) 4 + 5
      else
        d + cdiv (153 * (m + 1)) 5 + 15 * cmod y 100 + cdiv (cmod y 100) 4
          + 19 * cdiv y 100 + cdiv (cdiv y 100) 4 + 5 := by
  by_cases h : m < 3 <;>
    simp [weton, compute, century, reducedYear, wExpr, comma, cond, ltM, postDecY, addAssignM,
      postIncM, formula, h]

/-- The store after line 22 holds the adjusted month and reduced year. -/
theorem compute_store (d m y : Int) :
    (compute d m y).m = (if m < 3 then m + 13 else m + 1) ∧
    (compute d m y).y = (if m < 3 then cmod y 100 - 1 else cmod y 100) ∧
    (compute d m y).c = cdiv y 100 ∧ (compute d m y).d = d := by
  by_cases h : m < 3 <;>
    simp [compute, century, reducedYear, wExpr, comma, cond, ltM, postDecY, addAssignM,
      postIncM, formula, h]

/-! ## C1 -/

/-- C1: for every integer triple the value of `w` computed by the single
comma/conditional expression equals the two-step algorithm of the
specification, and the store afterwards shows that exactly one branch ran:
the month is `m + 13` and the reduced year is decremented when `m < 3`,
otherwise the month is `m + 1` and the reduced year is untouched. -/
theorem weton_eq_specTwoStep (d m y : Int) :
    weton d m y = specTwoStep d m y ∧
    (compute d m y).m = (if m < 3 then m + 13 else m + 1) ∧
    (compute d m y).y = (if m < 3 then Int.tmod y 100 - 1 else Int.tmod y 100) ∧
    (compute d m y).c = Int.tdiv y 100 := by
  refine ⟨?_, (compute_store d m y).1, (compute_store d m y).2.1, (compute_store d m y).2.2.1⟩
  rw [weton_unfold]
  rfl

/-! ## The day count in closed form -/

namespace Gregorian

theorem daysInYear_eq (y : Nat) :
    daysInYear y = 365 + (if y % 4 = 0 ∧ (y % 100 ≠ 0 ∨ y % 400 = 0) then 1 else 0) := by
  unfold daysInYear isLeapYear
  by_cases h4 : y % 4 = 0 <;> by_cases h100 : y % 100 = 0 <;>
    by_cases h400 : y % 400 = 0 <;> simp [h4, h100, h400]

/-- The years before year `k + 1` hold `365 k + k/4 - k/100 + k/400` days. -/
theorem daysBeforeYear_closed (k : Nat) :
    daysBeforeYear (k + 1) + k / 100 = 365 * k + k / 4 + k / 400 := by
  induction k with
  | zero => simp [daysBeforeYear]
  | succ n ih =>
    have hstep : daysBeforeYear (n + 1 + 1) = daysBeforeYear (n + 1) + daysInYear (n + 1) := by
      rw [daysBeforeYear]; simp
    have e4 : (n + 1) / 4 = n / 4 + (if (n + 1) % 4 = 0 then 1 else 0) := by
      split_ifs <;> omega
    have e100 : (n + 1) / 100 = n / 100 + (if (n + 1) % 100 = 0 then 1 else 0) := by
      split_ifs <;> omega
    have e400 : (n + 1) / 400 = n / 400 + (if (n + 1) % 400 = 0 then 1 else 0) := by
      split_ifs <;> omega
    have d100 : (n + 1) % 100 = 0 → (n + 1) % 4 = 0 := by omega
    have d400 : (n + 1) % 400 = 0 → (n + 1) % 100 = 0 := by omega
    rw [hstep, daysInYear_eq, e4, e100, e400]
    by_cases h4 : (n + 1) % 4 = 0 <;> by_cases h100 : (n + 1) % 100 = 0 <;>
      by_cases h400 : (n + 1) % 400 = 0 <;> simp [h4, h100, h400] <;>
      first
        | exact absurd (d100 h100) h4
        | exact absurd (d400 h400) h100
        | (clear e4 e100 e400 d100 d400 h4 h100 h400 hstep; omega)

end Gregorian

/-! ## The value of `w` on dates of year 1 and later -/

/-- On natural-number arguments with `m ≥ 3` every division of the formula has
non-negative operands, so truncation is the floor. -/
theorem weton_nat_of_ge (d m y : Nat) (hm : 3 ≤ m) :
    weton d m y = (d : Int) + (153 * ((m : Int) + 1)) / 5 + 15 * ((y : Int) % 100)
      + ((y : Int) % 100) / 4 + 19 * ((y : Int) / 100) + ((y : Int) / 100) / 4 + 5 := by
  have hlt : ¬ ((m : Int) < 3) := by omega
  rw [weton_unfold, if_neg hlt]
  rw [cmod_of_nonneg (by omega) (by omega), cdiv_of_nonneg (a := (y : Int)) (by omega) (by omega),
    cdiv_of_nonneg (a := 153 * ((m : Int) + 1)) (by omega) (by omega),
    cdiv_of_nonneg (a := (y : Int) % 100) (by omega) (by omega),
    cdiv_of_nonneg (a := (y : Int) / 100) (by omega) (by omega)]

/-- On natural-number arguments with `m < 3` the decremented reduced year is
`-1` when the year is a multiple of 100, and `(-1)/4` truncates to 0. -/
theorem weton_nat_of_lt (d m y : Nat) (hm : m < 3) :
    weton d m y = (d : Int) + (153 * ((m : Int) + 13)) / 5 + 15 * ((y : Int) % 100 - 1)
      + (if (y : Int) % 100 = 0 then 0 else ((y : Int) % 100 - 1) / 4)
      + 19 * ((y : Int) / 100) + ((y : Int) / 100) / 4 + 5 := by
  have hlt : (m : Int) < 3 := by omega
  rw [weton_unfold, if_pos hlt]
  rw [cmod_of_nonneg (by omega) (by omega), cdiv_of_nonneg (a := (y : Int)) (by omega) (by omega),
    cdiv_of_nonneg (a := 153 * ((m : Int) + 13)) (by omega) (by omega),
    cdiv_of_nonneg (a := (y : Int) / 100) (by omega) (by omega)]
  split_ifs with h0
  · rw [h0]; rfl
  · rw [cdiv_of_nonneg (a := (y : Int) % 100 - 1) (by omega) (by omega)]

namespace Gregorian

theorem isLeapYear_iff (y : Nat) :
    isLeapYear y = true ↔ y % 4 = 0 ∧ (y % 100 ≠ 0 ∨ y % 400 = 0) := by
  unfold isLeapYear
  by_cases h4 : y % 4 = 0 <;> by_cases h100 : y % 100 = 0 <;>
    by_cases h400 : y % 400 = 0 <;> simp [h4, h100, h400]

/-- From March on, the months before `m` hold `(153 (m + 1)) / 5 - 63` days,
one more in a leap year. -/
theorem daysBeforeMonth_of_ge (m y : Nat) (h3 : 3 ≤ m) (h12 : m ≤ 12) :
    daysBeforeMonth m y + 63 = 153 * (m + 1) / 5 + (if isLeapYear y then 1 else 0) := by
  interval_cases m <;> cases hl : isLeapYear y <;>
    simp [daysBeforeMonth, daysInMonth, hl]

/-- In January and February the months before `m` hold `(153 (m + 13)) / 5 - 428` days. -/
theorem daysBeforeMonth_of_lt (m y : Nat) (h1 : 1 ≤ m) (h3 : m < 3) :
    daysBeforeMonth m y + 428 = 153 * (m + 13) / 5 := by
  interval_cases m <;> simp [daysBeforeMonth, daysInMonth]

end Gregorian

/-- Every year splits as `400 a + 100 b + 4 e + f` with `b < 4`, `e < 25`, `f < 4`. -/
theorem year_split (y : Nat) :
    ∃ a b e f : Nat, y = 400 * a + 100 * b + 4 * e + f ∧ b < 4 ∧ e < 25 ∧ f < 4 := by
  refine ⟨y / 400, y % 400 / 100, y % 100 / 4, y % 4, ?_, ?_, ?_, ?_⟩
  · have h1 : y % 400 = 100 * (y % 400 / 100) + y % 100 := by omega
    have h2 : y % 100 = 4 * (y % 100 / 4) + y % 4 := by omega
    omega
  · omega
  · omega
  · omega

/-- The year terms of the formula from March on, against the days before the
year and the leap day: they differ by 15 up to a multiple of 35. -/
theorem year_terms_of_ge (y : Nat) (hy : 1 ≤ y) :
    (15 * ((y : Int) % 100) + ((y : Int) % 100) / 4 + 19 * ((y : Int) / 100)
      + ((y : Int) / 100) / 4 - (daysBeforeYear y : Nat)
      - (if isLeapYear y then 1 else 0) - 15) % 35 = 0 := by
  obtain ⟨k, rfl⟩ : ∃ k, y = k + 1 := ⟨y - 1, by omega⟩
  have hc := daysBeforeYear_closed k
  have hl := isLeapYear_iff (k + 1)
  generalize daysBeforeYear (k + 1) = A at hc ⊢
  obtain ⟨a, b, e, f, hsplit, hb, he, hf⟩ := year_split (k + 1)
  have q1 : ((k + 1 : Nat) : Int) / 100 = 4 * a + b := by omega
  have q2 : ((k + 1 : Nat) : Int) % 100 = 4 * e + f := by omega
  have q3 : (4 * (a : Int) + b) / 4 = a := by omega
  have q4 : (4 * (e : Int) + f) / 4 = e := by omega
  have p4 : (k + 1) % 4 = f := by omega
  have p100 : (k + 1) % 100 = 4 * e + f := by omega
  have p400 : (k + 1) % 400 = 100 * b + 4 * e + f := by omega
  have k4 : k / 4 + (if f = 0 then 1 else 0) = 100 * a + 25 * b + e := by
    split_ifs <;> omega
  have k100 : k / 100 + (if 4 * e + f = 0 then 1 else 0) = 4 * a + b := by
    split_ifs <;> omega
  have k400 : k / 400 + (if 100 * b + 4 * e + f = 0 then 1 else 0) = a := by
    split_ifs <;> omega
  rw [p4, p100, p400] at hl
  rw [q1, q2, q3, q4]
  generalize k / 4 = K4 at *
  generalize k / 100 = K100 at *
  generalize k / 400 = K400 at *
  have hk : k + 1 = 400 * a + 100 * b + 4 * e + f := hsplit
  clear hsplit
  cases hleap : isLeapYear (k + 1) <;> rw [hleap] at hl <;> simp at hl <;>
    split_ifs at k4 k100 k400 <;> simp <;> omega

/-- From March on, `w` is the day count plus 434, up to a multiple of 35. -/
theorem weton_congr_of_ge (d m y : Nat) (hy : 1 ≤ y) (h3 : 3 ≤ m) (h12 : m ≤ 12) (hd : 1 ≤ d) :
    (weton d m y - ((daysSinceEpoch d m y : Nat) + 434)) % 35 = 0 := by
  have ht := year_terms_of_ge y hy
  have hm := daysBeforeMonth_of_ge m y h3 h12
  rw [weton_nat_of_ge d m y h3]
  unfold daysSinceEpoch
  generalize daysBeforeYear y = A at ht ⊢
  generalize daysBeforeMonth m y = B at hm ⊢
  generalize (y : Int) % 100 / 4 = r4 at ht ⊢
  generalize (y : Int) / 100 / 4 = c4 at ht ⊢
  generalize (y : Int) % 100 = r at ht ⊢
  generalize (y : Int) / 100 = c at ht ⊢
  have hm2 : (B : Int) + 63 = 153 * ((m : Int) + 1) / 5 + (if isLeapYear y then 1 else 0) := by
    have := congrArg (fun n : Nat => (n : Int)) hm
    simp only at this
    push_cast at this
    exact this
  clear hm
  generalize 153 * ((m : Int) + 1) / 5 = M at hm2 ⊢
  cases hleap : isLeapYear y <;> simp only [hleap] at hm2 ht <;> simp at hm2 ht <;>
    push_cast <;> omega

/-- The year terms of the formula in January and February, against the days
before the year: equal up to a multiple of 35, except that they are one ahead
when the year is a multiple of 400. -/
theorem year_terms_of_lt (y : Nat) (hy : 1 ≤ y) :
    (15 * ((y : Int) % 100 - 1)
      + (if (y : Int) % 100 = 0 then 0 else ((y : Int) % 100 - 1) / 4)
      + 19 * ((y : Int) / 100) + ((y : Int) / 100) / 4 - (daysBeforeYear y : Nat)
      - (if y % 400 = 0 then 1 else 0)) % 35 = 0 := by
  obtain ⟨k, rfl⟩ : ∃ k, y = k + 1 := ⟨y - 1, by omega⟩
  have hc := daysBeforeYear_closed k
  generalize daysBeforeYear (k + 1) = A at hc ⊢
  obtain ⟨a, b, e, f, hsplit, hb, he, hf⟩ := year_split (k + 1)
  have q1 : ((k + 1 : Nat) : Int) / 100 = 4 * a + b := by omega
  have q2 : ((k + 1 : Nat) : Int) % 100 = 4 * e + f := by omega
  have q3 : (4 * (a : Int) + b) / 4 = a := by omega
  have q5 : (4 * (e : Int) + f - 1) / 4 + (if f = 0 then 1 else 0) = e := by
    split_ifs <;> omega
  have p400 : (k + 1) % 400 = 100 * b + 4 * e + f := by omega
  have k4 : k / 4 + (if f = 0 then 1 else 0) = 100 * a + 25 * b + e := by
    split_ifs <;> omega
  have k100 : k / 100 + (if 4 * e + f = 0 then 1 else 0) = 4 * a + b := by
    split_ifs <;> omega
  have k400 : k / 400 + (if 100 * b + 4 * e + f = 0 then 1 else 0) = a := by
    split_ifs <;> omega
  rw [p400, q1, q2, q3]
  generalize (4 * (e : Int) + f - 1) / 4 = R4 at *
  generalize k / 4 = K4 at *
  generalize k / 100 = K100 at *
  generalize k / 400 = K400 at *
  have hk : k + 1 = 400 * a + 100 * b + 4 * e + f := hsplit
  clear hsplit
  split_ifs at k4 k100 k400 q5 ⊢ <;> omega

/-- In January and February `w` is the day count plus 434, plus 1 when the
year is a multiple of 400, up to a multiple of 35. -/
theorem weton_congr_of_lt (d m y : Nat) (hy : 1 ≤ y) (h1 : 1 ≤ m) (h3 : m < 3) (hd : 1 ≤ d) :
    (weton d m y - ((daysSinceEpoch d m y : Nat) + 434
      + (if y % 400 = 0 then 1 else 0))) % 35 = 0 := by
  have ht := year_terms_of_lt y hy
  have hm := daysBeforeMonth_of_lt m y h1 h3
  rw [weton_nat_of_lt d m y h3]
  unfold daysSinceEpoch
  generalize daysBeforeYear y = A at ht ⊢
  generalize daysBeforeMonth m y = B at hm ⊢
  have hm2 : (B : Int) + 428 = 153 * ((m : Int) + 13) / 5 := by
    have := congrArg (fun n : Nat => (n : Int)) hm
    simp only at this
    push_cast at this
    exact this
  clear hm
  generalize 153 * ((m : Int) + 13) / 5 = M at hm2 ⊢
  generalize (if (y : Int) % 100 = 0 then (0 : Int) else ((y : Int) % 100 - 1) / 4) = r4 at ht ⊢
  generalize (y : Int) / 100 / 4 = c4 at ht ⊢
  generalize (y : Int) % 100 = r at ht ⊢
  generalize (y : Int) / 100 = c at ht ⊢
  generalize (if y % 400 = 0 then (1 : Int) else 0) = E at ht ⊢
  push_cast
  omega

/-! ## Bounds on `w` and on the subscripts -/

/-- For non-negative arguments `w` is at least 127. -/
theorem weton_ge_of_nonneg (d m y : Int) (hd : 0 ≤ d) (hm : 0 ≤ m) (hy : 0 ≤ y) :
    127 ≤ weton d m y := by
  rw [weton_unfold]
  have hr : cmod y 100 = y % 100 := cmod_of_nonneg hy (by omega)
  have hc : cdiv y 100 = y / 100 := cdiv_of_nonneg hy (by omega)
  have hc4 : cdiv (y / 100) 4 = (y / 100) / 4 := cdiv_of_nonneg (by omega) (by omega)
  rw [hr, hc, hc4]
  split_ifs with h
  · have h1 : cdiv (153 * (m + 13)) 5 = (153 * (m + 13)) / 5 :=
      cdiv_of_nonneg (by omega) (by omega)
    have h2 : 0 ≤ cdiv (y % 100 - 1) 4 := by
      by_cases h0 : y % 100 = 0
      · rw [h0]; decide
      · rw [cdiv_of_nonneg (by omega) (by omega)]; omega
    rw [h1]
    omega
  · have h1 : cdiv (153 * (m + 1)) 5 = (153 * (m + 1)) / 5 :=
      cdiv_of_nonneg (by omega) (by omega)
    have h2 : cdiv (y % 100) 4 = (y % 100) / 4 := cdiv_of_nonneg (by omega) (by omega)
    rw [h1, h2]
    omega

/-- A non-negative `w` gives subscripts inside both tables, equal to the
mathematical residues. -/
theorem subscripts_of_nonneg (w : Int) (hw : 0 ≤ w) :
    cmod w 7 = w % 7 ∧ cmod w 5 = w % 5 ∧ 0 ≤ cmod w 7 ∧ cmod w 7 ≤ 6 ∧
    0 ≤ cmod w 5 ∧ cmod w 5 ≤ 4 := by
  have h7 : cmod w 7 = w % 7 := cmod_of_nonneg hw (by omega)
  have h5 : cmod w 5 = w % 5 := cmod_of_nonneg hw (by omega)
  rw [h7, h5]
  omega

/-- A subscript inside the table reads the entry at that position. -/
theorem subscript_of_bounds (tbl : List String) (i : Int) (h0 : 0 ≤ i) (h1 : i < tbl.length) :
    ∃ a, tbl[i.toNat]? = some a ∧ subscript tbl i = some a := by
  have hlt : i.toNat < tbl.length := by omega
  refine ⟨tbl[i.toNat], ?_, ?_⟩
  · exact List.getElem?_eq_getElem hlt
  · unfold subscript
    rw [if_pos h0]
    exact List.getElem?_eq_getElem hlt

/-! ## The behaviour of `main` -/

/-- With fewer than three positional arguments `main` prints the usage line
and exits with status 1. -/
theorem main_usage (argv : List String) (h : argv.length < 4) :
    main argv = some { stdout := "Usage: weton DAY MONTH YEAR.\n", status := 1 } := by
  unfold main
  rw [if_pos (by omega)]

/-- The usage line with status 1 is the outcome exactly when fewer than three
positional arguments are given. -/
theorem main_usage_iff (argv : List String) :
    main argv = some { stdout := "Usage: weton DAY MONTH YEAR.\n", status := 1 }
      ↔ argv.length < 4 := by
  constructor
  · intro h
    by_contra hlen
    have hlen2 : ¬ ((argv.length : Int) < 4) := by omega
    unfold main at h
    rw [if_neg hlen2] at h
    revert h
    simp only []
    split
    · intro h
      have hs := congrArg (fun o : Option Outcome => o.map Outcome.status) h
      simp at hs
    · intro h
      exact Option.noConfusion h
  · exact main_usage argv

/-- With three or more positional arguments whose `w` is non-negative, `main`
prints the two table entries at the residues of `w` and exits with status 0;
`w` depends on the first three arguments only. -/
theorem main_of_nonneg (prog a1 a2 a3 : String) (rest : List String)
    (hw : 0 ≤ weton (atoi a1) (atoi a2) (atoi a3)) :
    ∃ a b, dow[(weton (atoi a1) (atoi a2) (atoi a3) % 7).toNat]? = some a ∧
      pasaran[(weton (atoi a1) (atoi a2) (atoi a3) % 5).toNat]? = some b ∧
      main (prog :: a1 :: a2 :: a3 :: rest)
        = some { stdout := "~ " ++ a ++ " " ++ b ++ " ~\n", status := 0 } := by
  obtain ⟨h7, h5, l7, u7, l5, u5⟩ := subscripts_of_nonneg _ hw
  obtain ⟨a, ha, ha2⟩ := subscript_of_bounds dow _ l7 (by simp [dow]; omega)
  obtain ⟨b, hb, hb2⟩ := subscript_of_bounds pasaran _ l5 (by simp [pasaran]; omega)
  refine ⟨a, b, by rw [← h7]; exact ha, by rw [← h5]; exact hb, ?_⟩
  have hlen : ¬ (((prog :: a1 :: a2 :: a3 :: rest).length : Int) < 4) := by
    simp only [List.length_cons]; push_cast; omega
  unfold main
  rw [if_neg hlen]
  simp only [List.getD_cons_succ, List.getD_cons_zero]
  rw [ha2, hb2]

/-! ## Day counts of the dates used below -/

namespace Gregorian

/-- The reference calendar is coherent: the day after a valid date is a valid
date, one day later in the day count. -/
theorem nextDay_daysSinceEpoch (d m y : Nat) (hv : validDate d m y) :
    validDate (nextDay d m y).1 (nextDay d m y).2.1 (nextDay d m y).2.2 ∧
    daysSinceEpoch (nextDay d m y).1 (nextDay d m y).2.1 (nextDay d m y).2.2
      = daysSinceEpoch d m y + 1 := by
  obtain ⟨hy, hm1, hm12, hd1, hd2⟩ := hv
  unfold nextDay
  by_cases h1 : d < daysInMonth m y
  · rw [if_pos h1]
    dsimp only
    refine ⟨⟨hy, hm1, hm12, by omega, by omega⟩, ?_⟩
    unfold daysSinceEpoch
    omega
  · rw [if_neg h1]
    have hd : d = daysInMonth m y := by omega
    by_cases h2 : m < 12
    · rw [if_pos h2]
      dsimp only
      have hlen : 1 ≤ daysInMonth (m + 1) y := by
        unfold daysInMonth; split_ifs <;> omega
      refine ⟨⟨hy, by omega, by omega, by omega, hlen⟩, ?_⟩
      have hstep : daysBeforeMonth (m + 1) y = daysBeforeMonth m y + daysInMonth m y := by
        rw [daysBeforeMonth]
        rw [if_neg (by omega)]
      unfold daysSinceEpoch
      rw [hstep]
      omega
    · rw [if_neg h2]
      have hm : m = 12 := by omega
      subst hm
      dsimp only
      refine ⟨by unfold validDate daysInMonth; simp, ?_⟩
      have hstep : daysBeforeYear (y + 1) = daysBeforeYear y + daysInYear y := by
        rw [daysBeforeYear]
        rw [if_neg (by omega)]
      have hmon : daysBeforeMonth 12 y + 31 = daysInYear y := by
        unfold daysInYear
        cases hl : isLeapYear y <;> simp [daysBeforeMonth, daysInMonth, hl]
      have hd31 : daysInMonth 12 y = 31 := by simp [daysInMonth]
      have h0 : daysBeforeMonth 1 (y + 1) = 0 := by simp [daysBeforeMonth]
      unfold daysSinceEpoch
      rw [hstep, h0]
      omega

theorem daysSinceEpoch_1945_08_17 : daysSinceEpoch 17 8 1945 = 710259 := by
  have h := daysBeforeYear_closed 1944
  have hm := daysBeforeMonth_of_ge 8 1945 (by decide) (by decide)
  have hl : isLeapYear 1945 = false := by decide
  rw [hl] at hm
  simp at hm h
  unfold daysSinceEpoch
  omega

theorem daysSinceEpoch_2000_01_01 : daysSinceEpoch 1 1 2000 = 730119 := by
  have h := daysBeforeYear_closed 1999
  have hm := daysBeforeMonth_of_lt 1 2000 (by decide) (by decide)
  simp at hm h
  unfold daysSinceEpoch
  omega

theorem daysSinceEpoch_2000_02_29 : daysSinceEpoch 29 2 2000 = 730178 := by
  have h := daysBeforeYear_closed 1999
  have hm := daysBeforeMonth_of_lt 2 2000 (by decide) (by decide)
  simp at hm h
  unfold daysSinceEpoch
  omega

theorem daysSinceEpoch_2000_03_01 : daysSinceEpoch 1 3 2000 = 730179 := by
  have h := daysBeforeYear_closed 1999
  have hm := daysBeforeMonth_of_ge 3 2000 (by decide) (by decide)
  have hl : isLeapYear 2000 = true := by decide
  rw [hl] at hm
  simp at hm h
  unfold daysSinceEpoch
  omega

end Gregorian

/-! ## C2 -/

/-- C2 (the code departs from the claim): for the valid date 1 January 2000,
a Saturday (730119 days after Monday 1 January of year 1, residue 5), the
program computes `w = 804` and the weekday subscript `804 % 7 = 6`, which is
Sunday (Ngahad). -/
theorem dowIndex_2000_01_01 :
    validDate 1 1 2000 ∧ weekday 1 1 2000 = 5 ∧
    weton 1 1 2000 = 804 ∧ dowIndex 1 1 2000 = 6 ∧
    subscript dow (dowIndex 1 1 2000) = some "Ngahad" := by
  refine ⟨by decide, ?_, by decide, by decide, by decide⟩
  unfold weekday
  rw [daysSinceEpoch_2000_01_01]

/-! ## C3 -/

/-- C3 (the code departs from the claim): 29 February 2000 is a valid date
and its next day is 1 March 2000, one day later in the day count, yet the
program computes `w = 863` and `w = 513`, both of residue 23 modulo 35: the
weekday and pasaran subscripts of the two consecutive days are the same. -/
theorem weton_2000_02_29_next :
    validDate 29 2 2000 ∧ nextDay 29 2 2000 = (1, 3, 2000) ∧
    daysSinceEpoch 1 3 2000 = daysSinceEpoch 29 2 2000 + 1 ∧
    weton 29 2 2000 = 863 ∧ weton 1 3 2000 = 513 ∧
    weton 1 3 2000 % 35 = weton 29 2 2000 % 35 ∧
    dowIndex 1 3 2000 = dowIndex 29 2 2000 ∧
    pasaranIndex 1 3 2000 = pasaranIndex 29 2 2000 := by
  refine ⟨by decide, by decide, ?_, by decide, by decide, by decide, by decide, by decide⟩
  rw [daysSinceEpoch_2000_03_01, daysSinceEpoch_2000_02_29]

/-! ## C4 -/

/-- C4 (the code departs from the claim): for the arguments 17, 8, -1945 the
program computes `w = -754`; C's `%` keeps the sign of `w`, so the subscripts
are `-5` and `-4`, outside both tables. -/
theorem subscripts_negative_year :
    weton 17 8 (-1945) = -754 ∧ dowIndex 17 8 (-1945) = -5 ∧
    pasaranIndex 17 8 (-1945) = -4 ∧
    subscript dow (dowIndex 17 8 (-1945)) = none ∧
    subscript pasaran (pasaranIndex 17 8 (-1945)) = none := by
  decide

/-! ## C5 -/

/-- C5 (the code departs from the claim): the run `weton 17 8 -1945` has
three positional arguments, yet it does not print a line of two table
entries: both table reads are out of bounds. -/
theorem main_negative_year :
    atoi "17" = 17 ∧ atoi "8" = 8 ∧ atoi "-1945" = -1945 ∧
    main ["weton", "17", "8", "-1945"] = none := by
  decide

/-! ## C6 -/

/-- C6: for the arguments 17, 8, 1945 the program takes the `m++` branch (the
month becomes 9, the reduced year stays 45), computes `w = 1348`, hence the
subscripts 4 and 3, and prints `~ Jemuwah Legi ~`; in the calendar that day
is a Friday. -/
theorem main_1945_08_17 :
    (compute 17 8 1945).m = 9 ∧ (compute 17 8 1945).y = 45 ∧ (compute 17 8 1945).c = 19 ∧
    weton 17 8 1945 = 1348 ∧ dowIndex 17 8 1945 = 4 ∧ pasaranIndex 17 8 1945 = 3 ∧
    subscript dow 4 = some "Jemuwah" ∧ subscript pasaran 3 = some "Legi" ∧
    main ["weton", "17", "8", "1945"] = some { stdout := "~ Jemuwah Legi ~\n", status := 0 } ∧
    Gregorian.weekday 17 8 1945 = 4 := by
  refine ⟨by decide, by decide, by decide, by decide, by decide, by decide, by decide,
    by decide, by decide, ?_⟩
  unfold Gregorian.weekday
  rw [Gregorian.daysSinceEpoch_1945_08_17]

/-! ## Truncating division of the year -/

/-- The century and reduced year in terms of floor division, by the sign of `y`. -/
theorem century_reducedYear_cases (y : Int) :
    (0 ≤ y → century y = y / 100 ∧ reducedYear y = y % 100) ∧
    (y < 0 → century y = -((-y) / 100) ∧ reducedYear y = -((-y) % 100)) := by
  unfold century reducedYear
  constructor
  · intro h
    exact ⟨cdiv_of_nonneg h (by omega), cmod_of_nonneg h (by omega)⟩
  · intro h
    exact ⟨cdiv_of_neg h (by omega), cmod_of_neg h (by omega)⟩

/-! ## C7 -/

/-- C7: for every integer year `y` the century and reduced year the program
stores are quotient and remainder of the division by 100 truncating toward
zero: `y = 100 c + r`, `|r| < 100`, and `r` is zero or has the sign of `y`;
for `y = -1945` they are `-19` and `-45`. -/
theorem century_reducedYear_truncate (d m y : Int) :
    (compute d m y).c = century y ∧
    (compute d m y).y = reducedYear y - (if m < 3 then 1 else 0) ∧
    y = 100 * century y + reducedYear y ∧ |reducedYear y| < 100 ∧
    (reducedYear y = 0 ∨ (0 < y ∧ 0 < reducedYear y) ∨ (y < 0 ∧ reducedYear y < 0)) ∧
    century (-1945) = -19 ∧ reducedYear (-1945) = -45 := by
  obtain ⟨hpos, hneg⟩ := century_reducedYear_cases y
  refine ⟨(compute_store d m y).2.2.1, ?_, ?_, ?_, ?_, by decide, by decide⟩
  · rw [(compute_store d m y).2.1]
    unfold reducedYear
    split_ifs <;> simp
  · rcases Int.lt_or_le y 0 with h | h
    · obtain ⟨hc, hr⟩ := hneg h
      rw [hc, hr]; omega
    · obtain ⟨hc, hr⟩ := hpos h
      rw [hc, hr]; omega
  · rw [abs_lt]
    rcases Int.lt_or_le y 0 with h | h
    · obtain ⟨_, hr⟩ := hneg h
      rw [hr]; omega
    · obtain ⟨_, hr⟩ := hpos h
      rw [hr]; omega
  · rcases Int.lt_or_le y 0 with h | h
    · obtain ⟨_, hr⟩ := hneg h
      rw [hr]; omega
    · obtain ⟨_, hr⟩ := hpos h
      rw [hr]; omega

/-! ## C8 -/

/-- C8, as stated, fails at `y = -50`: the century of 50 and of -50 are both 0,
and the reduced years are 50 and -50. -/
theorem century_shift_fails :
    century (-50 + 100) = 0 ∧ century (-50) = 0 ∧
    ¬ (century (-50 + 100) = century (-50) + 1) ∧
    reducedYear (-50 + 100) = 50 ∧ reducedYear (-50) = -50 ∧
    ¬ (reducedYear (-50 + 100) = reducedYear (-50)) := by
  decide

/-- C8, amended: replacing `y` by `y + 100` increases the century by exactly 1
and leaves the reduced year unchanged precisely for the years `y ≥ 0` and
`y ≤ -100`; for `-100 < y < 0` neither equality holds. -/
theorem century_shift_iff (y : Int) :
    ((century (y + 100) = century y + 1 ∧ reducedYear (y + 100) = reducedYear y)
      ↔ (0 ≤ y ∨ y ≤ -100)) ∧
    ((century (y + 100) = century y + 1 ∨ reducedYear (y + 100) = reducedYear y)
      ↔ (0 ≤ y ∨ y ≤ -100)) := by
  obtain ⟨hpos, hneg⟩ := century_reducedYear_cases y
  obtain ⟨hpos2, hneg2⟩ := century_reducedYear_cases (y + 100)
  rcases Int.lt_or_le y 0 with h | h
  · obtain ⟨hc, hr⟩ := hneg h
    rcases Int.lt_or_le (y + 100) 0 with h2 | h2
    · obtain ⟨hc2, hr2⟩ := hneg2 h2
      rw [hc, hr, hc2, hr2]
      have e : -(y + 100) = -y - 100 := by ring
      rw [e]
      constructor <;> constructor <;> intro _ <;> omega
    · obtain ⟨hc2, hr2⟩ := hpos2 h2
      rw [hc, hr, hc2, hr2]
      constructor <;> constructor <;> intro _ <;> omega
  · obtain ⟨hc, hr⟩ := hpos h
    obtain ⟨hc2, hr2⟩ := hpos2 (by omega)
    rw [hc, hr, hc2, hr2]
    constructor <;> constructor <;> intro _ <;> omega

/-! ## C9 -/

/-- C9: let `n` be the number of days from 1 January of year 1 to a valid
date. Outside January and February of the years divisible by 400, `w` is
congruent to `n + 434` modulo 35, the weekday subscript is `n mod 7` and the
pasaran subscript is `(n + 4) mod 5`; in January and February of a year
divisible by 400, `w` is congruent to `n + 435` and both subscripts are one
position ahead. -/
theorem weton_congr_daysSinceEpoch (d m y : Nat) (hv : validDate d m y) :
    (¬ (m < 3 ∧ y % 400 = 0) →
      weton d m y % 35 = ((daysSinceEpoch d m y : Nat) + 434) % 35 ∧
      dowIndex d m y = (daysSinceEpoch d m y : Nat) % 7 ∧
      pasaranIndex d m y = ((daysSinceEpoch d m y : Nat) + 4) % 5) ∧
    ((m < 3 ∧ y % 400 = 0) →
      weton d m y % 35 = ((daysSinceEpoch d m y : Nat) + 435) % 35 ∧
      dowIndex d m y = ((daysSinceEpoch d m y : Nat) + 1) % 7 ∧
      pasaranIndex d m y = ((daysSinceEpoch d m y : Nat) + 4 + 1) % 5) := by
  obtain ⟨hy, hm1, hm12, hd1, _⟩ := hv
  have hw : 0 ≤ weton d m y := by
    have := weton_ge_of_nonneg d m y (by omega) (by omega) (by omega)
    omega
  obtain ⟨h7, h5, _⟩ := subscripts_of_nonneg _ hw
  unfold dowIndex pasaranIndex
  rw [h7, h5]
  generalize hn : daysSinceEpoch d m y = n
  by_cases h3 : m < 3
  · have hc := weton_congr_of_lt d m y hy hm1 h3 hd1
    rw [hn] at hc
    generalize weton d m y = w at hc ⊢
    constructor
    · intro hne
      have h400 : ¬ (y % 400 = 0) := fun h => hne ⟨h3, h⟩
      rw [if_neg h400] at hc
      omega
    · intro he
      rw [if_pos he.2] at hc
      omega
  · have hc := weton_congr_of_ge d m y hy (by omega) hm12 hd1
    rw [hn] at hc
    generalize weton d m y = w at hc ⊢
    constructor
    · intro _
      omega
    · intro he
      exact absurd he.1 h3

/-- C9 at 17 August 1945 (the general case) and at 29 February 2000
(February of a year divisible by 400). -/
theorem weton_congr_daysSinceEpoch_witness :
    (validDate 17 8 1945 ∧
      weton 17 8 1945 % 35 = ((daysSinceEpoch 17 8 1945 : Nat) + 434) % 35 ∧
      dowIndex 17 8 1945 = (daysSinceEpoch 17 8 1945 : Nat) % 7 ∧
      pasaranIndex 17 8 1945 = ((daysSinceEpoch 17 8 1945 : Nat) + 4) % 5) ∧
    (validDate 29 2 2000 ∧
      weton 29 2 2000 % 35 = ((daysSinceEpoch 29 2 2000 : Nat) + 435) % 35 ∧
      dowIndex 29 2 2000 = ((daysSinceEpoch 29 2 2000 : Nat) + 1) % 7 ∧
      pasaranIndex 29 2 2000 = ((daysSinceEpoch 29 2 2000 : Nat) + 4 + 1) % 5) :=
  ⟨⟨by decide, (weton_congr_daysSinceEpoch 17 8 1945 (by decide)).1 (by decide)⟩,
   ⟨by decide, (weton_congr_daysSinceEpoch 29 2 2000 (by decide)).2 (by decide)⟩⟩

/-! ## C10 -/

/-- C10: for all non-negative `d`, `m`, `y` the value `w` is at least 127,
hence positive; the subscripts `w % 7` and `w % 5` lie in `[0, 6]` and
`[0, 4]` and both table reads succeed. The bound is attained at (0, 3, 0). -/
theorem weton_ge_127 (d m y : Int) (hd : 0 ≤ d) (hm : 0 ≤ m) (hy : 0 ≤ y) :
    127 ≤ weton d m y ∧ 0 < weton d m y ∧
    0 ≤ dowIndex d m y ∧ dowIndex d m y ≤ 6 ∧
    0 ≤ pasaranIndex d m y ∧ pasaranIndex d m y ≤ 4 ∧
    (subscript dow (dowIndex d m y)).isSome = true ∧
    (subscript pasaran (pasaranIndex d m y)).isSome = true ∧
    weton 0 3 0 = 127 := by
  have hw := weton_ge_of_nonneg d m y hd hm hy
  obtain ⟨_, _, l7, u7, l5, u5⟩ := subscripts_of_nonneg (weton d m y) (by omega)
  obtain ⟨a, _, ha⟩ := subscript_of_bounds dow (dowIndex d m y) l7
    (by simp [dow]; unfold dowIndex; omega)
  obtain ⟨b, _, hb⟩ := subscript_of_bounds pasaran (pasaranIndex d m y) l5
    (by simp [pasaran]; unfold pasaranIndex; omega)
  refine ⟨hw, by omega, l7, u7, l5, u5, ?_, ?_, by decide⟩
  · rw [ha]; rfl
  · rw [hb]; rfl

/-- C10 at the arguments (0, 3, 0), where the bound 127 is attained. -/
theorem weton_ge_127_witness :
    (0 : Int) ≤ 0 ∧ (0 : Int) ≤ 3 ∧ 127 ≤ weton 0 3 0 ∧ weton 0 3 0 = 127 ∧
    dowIndex 0 3 0 = 1 ∧ pasaranIndex 0 3 0 = 2 :=
  ⟨by decide, by decide,
    (weton_ge_127 0 3 0 (by decide) (by decide) (by decide)).1,
    by decide, by decide, by decide⟩

/-! ## Fixed-width arithmetic -/

/-- Truncating division by a positive number moves a value toward zero. -/
theorem cdiv_bounds (a b : Int) (hb : 0 < b) :
    (0 ≤ a → 0 ≤ cdiv a b ∧ cdiv a b ≤ a) ∧ (a < 0 → a ≤ cdiv a b ∧ cdiv a b ≤ 0) := by
  constructor
  · intro ha
    rw [cdiv_of_nonneg ha (by omega)]
    exact ⟨Int.ediv_nonneg ha (by omega), Int.ediv_le_self b ha⟩
  · intro ha
    rw [cdiv_of_neg ha (by omega)]
    have h1 : 0 ≤ (-a) / b := Int.ediv_nonneg (by omega) (by omega)
    have h2 : (-a) / b ≤ -a := Int.ediv_le_self b (by omega)
    omega

/-- The final store of lines 19 to 22, field by field. -/
theorem compute_eq (d m y : Int) :
    compute d m y =
      if m < 3 then
        { d := d, m := m + 13, y := cmod y 100 - 1, c := cdiv y 100,
          w := d + cdiv (153 * (m + 13)) 5 + 15 * (cmod y 100 - 1) + cdiv (cmod y 100 - 1) 4
            + 19 * cdiv y 100 + cdiv (cdiv y 100) 4 + 5 }
      else
        { d := d, m := m + 1, y := cmod y 100, c := cdiv y 100,
          w := d + cdiv (153 * (m + 1)) 5 + 15 * cmod y 100 + cdiv (cmod y 100) 4
            + 19 * cdiv y 100 + cdiv (cdiv y 100) 4 + 5 } := by
  by_cases h : m < 3 <;>
    simp [compute, century, reducedYear, wExpr, comma, cond, ltM, postDecY, addAssignM,
      postIncM, formula, h]

/-- In the mode that keeps every result, the statements in a mode are the
statements over unbounded integers. -/
theorem computeM_exact (d m y : Int) : computeM exact d m y = some (compute d m y) := by
  rw [compute_eq]
  by_cases h : m < 3 <;>
    simp [computeM, wExprM, commaM, condM, ltMM, postDecYM, addAssignMM, postIncMM, formulaM,
      exact, h]

/-- On in-range values the checking mode keeps the value. -/
theorem checked_of_inRange (x : Int) (h : inRange x) : checked x = some x := by
  unfold checked
  rw [if_pos h]

/-- On in-range values wrap-around keeps the value. -/
theorem wrapping_of_inRange (x : Int) (h : inRange x) : wrapping x = some x := by
  unfold inRange intMin intMax at h
  unfold wrapping wrap
  congr 1
  omega

/-- The checking mode stops exactly on the values outside the range. -/
theorem checked_eq_none_iff (x : Int) : checked x = none ↔ ¬ inRange x := by
  unfold checked
  by_cases h : inRange x <;> simp [h]

/-- The formula in a mode that keeps in-range values: with the operands in
the ranges they have after the month adjustment, all twelve operations keep
their exact result. -/
theorem formulaM_of_keeps (md : Mode) (hmd : ∀ x, inRange x → md x = some x) (s : Vars)
    (hd1 : 1 ≤ s.d) (hd2 : s.d ≤ 31) (hm1 : 4 ≤ s.m) (hm2 : s.m ≤ 15)
    (hy1 : -100 ≤ s.y) (hy2 : s.y ≤ 99) (hc1 : -21474836 ≤ s.c) (hc2 : s.c ≤ 21474836) :
    formulaM md s = some (formula s) := by
  obtain ⟨b2, _⟩ := cdiv_bounds (153 * s.m) 5 (by omega)
  obtain ⟨b6p, b6n⟩ := cdiv_bounds s.y 4 (by omega)
  obtain ⟨b10p, b10n⟩ := cdiv_bounds s.c 4 (by omega)
  have b2 := b2 (by omega)
  unfold formulaM formula
  rw [hmd (153 * s.m) (by unfold inRange intMin intMax; omega)]
  simp only [Option.some_bind]
  rw [hmd (cdiv (153 * s.m) 5) (by unfold inRange intMin intMax; omega)]
  simp only [Option.some_bind]
  rw [hmd (s.d + cdiv (153 * s.m) 5) (by unfold inRange intMin intMax; omega)]
  simp only [Option.some_bind]
  rw [hmd (15 * s.y) (by unfold inRange intMin intMax; omega)]
  simp only [Option.some_bind]
  rw [hmd (s.d + cdiv (153 * s.m) 5 + 15 * s.y) (by unfold inRange intMin intMax; omega)]
  simp only [Option.some_bind]
  rw [hmd (cdiv s.y 4) (by unfold inRange intMin intMax; omega)]
  simp only [Option.some_bind]
  rw [hmd (s.d + cdiv (153 * s.m) 5 + 15 * s.y + cdiv s.y 4)
    (by unfold inRange intMin intMax; omega)]
  simp only [Option.some_bind]
  rw [hmd (19 * s.c) (by unfold inRange intMin intMax; omega)]
  simp only [Option.some_bind]
  rw [hmd (s.d + cdiv (153 * s.m) 5 + 15 * s.y + cdiv s.y 4 + 19 * s.c)
    (by unfold inRange intMin intMax; omega)]
  simp only [Option.some_bind]
  rw [hmd (cdiv s.c 4) (by unfold inRange intMin intMax; omega)]
  simp only [Option.some_bind]
  rw [hmd (s.d + cdiv (153 * s.m) 5 + 15 * s.y + cdiv s.y 4 + 19 * s.c + cdiv s.c 4)
    (by unfold inRange intMin intMax; omega)]
  simp only [Option.some_bind]
  rw [hmd (s.d + cdiv (153 * s.m) 5 + 15 * s.y + cdiv s.y 4 + 19 * s.c + cdiv s.c 4 + 5)
    (by unfold inRange intMin intMax; omega)]
  simp only [Option.some_bind]

/-- Century and reduced year of an in-range year. -/
theorem century_reducedYear_range (y : Int) (hy : inRange y) :
    -21474836 ≤ cdiv y 100 ∧ cdiv y 100 ≤ 21474836 ∧ -99 ≤ cmod y 100 ∧ cmod y 100 ≤ 99 := by
  unfold inRange intMin intMax at hy
  rcases Int.lt_or_le y 0 with h | h
  · rw [cdiv_of_neg h (by omega), cmod_of_neg h (by omega)]
    omega
  · rw [cdiv_of_nonneg h (by omega), cmod_of_nonneg h (by omega)]
    omega

/-- Lines 19 to 22 in a mode that keeps in-range values: for an in-range
year, a day in 1..31 and a month in 1..12 every operation keeps its exact
result, so the final store is the one computed over unbounded integers. -/
theorem computeM_of_keeps (md : Mode) (hmd : ∀ x, inRange x → md x = some x) (d m y : Int)
    (hy : inRange y) (hd1 : 1 ≤ d) (hd2 : d ≤ 31) (hm1 : 1 ≤ m) (hm2 : m ≤ 12) :
    computeM md d m y = some (compute d m y) := by
  obtain ⟨hc1, hc2, hr1, hr2⟩ := century_reducedYear_range y hy
  have hce : compute d m y = (fun res : Int × Vars => ({ res.2 with w := res.1 } : Vars))
      (wExpr { d := d, m := m, y := cmod y 100, c := cdiv y 100, w := 0 }) := rfl
  rw [hce]
  unfold computeM
  rw [hmd (cdiv y 100) (by unfold inRange intMin intMax; omega)]
  simp only [Option.some_bind]
  rw [hmd (cmod y 100) (by unfold inRange intMin intMax; omega)]
  simp only [Option.some_bind]
  generalize cdiv y 100 = c at hc1 hc2 ⊢
  generalize cmod y 100 = r at hr1 hr2 ⊢
  have hw : wExprM md { d := d, m := m, y := r, c := c, w := 0 }
      = some (wExpr { d := d, m := m, y := r, c := c, w := 0 }) := by
    unfold wExprM wExpr commaM comma condM cond ltMM ltM
    simp only [Option.some_bind]
    by_cases h : m < 3
    · simp only [h, if_true, ne_eq, one_ne_zero, not_false_eq_true]
      unfold postDecYM postDecY addAssignMM addAssignM
      simp only
      rw [hmd (r - 1) (by unfold inRange intMin intMax; omega)]
      simp only [Option.some_bind]
      rw [hmd (m + 13) (by unfold inRange intMin intMax; omega)]
      simp only [Option.some_bind]
      exact formulaM_of_keeps md hmd _ hd1 hd2 (by simp only; omega) (by simp only; omega)
        (by simp only; omega) (by simp only; omega) hc1 hc2
    · simp only [h, if_false, ne_eq, not_true_eq_false]
      unfold postIncMM postIncM
      simp only
      rw [hmd (m + 1) (by unfold inRange intMin intMax; omega)]
      simp only [Option.some_bind]
      exact formulaM_of_keeps md hmd _ hd1 hd2 (by simp only; omega) (by simp only; omega)
        (by simp only; omega) (by simp only; omega) hc1 hc2
  rw [hw]
  simp only [Option.some_bind]

/-- For an in-range year, a day in 1..31 and a month in 1..12 the value of `w`
is representable. -/
theorem weton_inRange (d m y : Int) (hy : inRange y) (hd1 : 1 ≤ d) (hd2 : d ≤ 31)
    (hm1 : 1 ≤ m) (hm2 : m ≤ 12) : inRange (weton d m y) := by
  obtain ⟨hc1, hc2, hr1, hr2⟩ := century_reducedYear_range y hy
  obtain ⟨bcp, bcn⟩ := cdiv_bounds (cdiv y 100) 4 (by omega)
  rw [weton_unfold]
  unfold inRange intMin intMax
  split_ifs with h
  · obtain ⟨bm, _⟩ := cdiv_bounds (153 * (m + 13)) 5 (by omega)
    obtain ⟨brp, brn⟩ := cdiv_bounds (cmod y 100 - 1) 4 (by omega)
    have bm := bm (by omega)
    omega
  · obtain ⟨bm, _⟩ := cdiv_bounds (153 * (m + 1)) 5 (by omega)
    obtain ⟨brp, brn⟩ := cdiv_bounds (cmod y 100) 4 (by omega)
    have bm := bm (by omega)
    omega

/-! ## C11 -/

/-- C11: for every year representable as a 32-bit signed integer, every day in
1..31 and every month in 1..12, the evaluation that stops at the first result
outside the 32-bit signed range (of `y/100`, `y%100`, `y--`, `m+=13` or `m++`,
`153*m`, the quotients, `15*y`, `19*c` and each partial sum) runs to the end,
and it, the wrap-around 32-bit evaluation and the evaluation over unbounded
integers leave the same store, with the same representable `w`. -/
theorem computeM_int32 (d m y : Int) (hy : inRange y) (hd1 : 1 ≤ d) (hd2 : d ≤ 31)
    (hm1 : 1 ≤ m) (hm2 : m ≤ 12) :
    computeM checked d m y = some (compute d m y) ∧
    computeM wrapping d m y = some (compute d m y) ∧
    computeM wrapping d m y = computeM exact d m y ∧
    (computeM wrapping d m y).map Vars.w = some (weton d m y) ∧
    inRange (weton d m y) := by
  have hk := computeM_of_keeps checked checked_of_inRange d m y hy hd1 hd2 hm1 hm2
  have hwr := computeM_of_keeps wrapping wrapping_of_inRange d m y hy hd1 hd2 hm1 hm2
  refine ⟨hk, hwr, ?_, ?_, weton_inRange d m y hy hd1 hd2 hm1 hm2⟩
  · rw [hwr, computeM_exact]
  · rw [hwr]
    rfl

/-- C11 at 31 December of the greatest 32-bit year and at 1 January of the
least one. -/
theorem computeM_int32_witness :
    (inRange 2147483647 ∧
      computeM checked 31 12 2147483647 = some (compute 31 12 2147483647) ∧
      computeM wrapping 31 12 2147483647 = some (compute 31 12 2147483647)) ∧
    (inRange (-2147483648) ∧
      computeM checked 1 1 (-2147483648) = some (compute 1 1 (-2147483648)) ∧
      computeM wrapping 1 1 (-2147483648) = some (compute 1 1 (-2147483648))) :=
  ⟨⟨by decide,
    (computeM_int32 31 12 2147483647 (by decide) (by decide) (by decide) (by decide)
      (by decide)).1,
    (computeM_int32 31 12 2147483647 (by decide) (by decide) (by decide) (by decide)
      (by decide)).2.1⟩,
   ⟨by decide,
    (computeM_int32 1 1 (-2147483648) (by decide) (by decide) (by decide) (by decide)
      (by decide)).1,
    (computeM_int32 1 1 (-2147483648) (by decide) (by decide) (by decide) (by decide)
      (by decide)).2.1⟩⟩

/-! ## C12 -/

/-- Adding 400 to a non-negative year adds 4 to the century, 1 to its quarter,
and leaves the reduced year as it is. -/
theorem year_add_400 (y : Int) (hy : 0 ≤ y) :
    cdiv (y + 400) 100 = cdiv y 100 + 4 ∧ cmod (y + 400) 100 = cmod y 100 ∧
    cdiv (cdiv y 100 + 4) 4 = cdiv (cdiv y 100) 4 + 1 := by
  have hc : cdiv y 100 = y / 100 := cdiv_of_nonneg hy (by omega)
  rw [cdiv_of_nonneg (a := y + 400) (by omega) (by omega),
    cmod_of_nonneg (a := y + 400) (by omega) (by omega),
    cmod_of_nonneg hy (by omega), hc,
    cdiv_of_nonneg (a := y / 100 + 4) (by omega) (by omega),
    cdiv_of_nonneg (a := y / 100) (by omega) (by omega)]
  omega

/-- C12: for all integers `d`, `m` and every year `y ≥ 0`,
`w(d, m, y + 400) = w(d, m, y) + 77`; hence, for non-negative `d` and `m`, the
weekday subscript of `(d, m, y + 400)` is that of `(d, m, y)`, the pasaran
subscript is advanced by 2 modulo 5, and the two pairs of subscripts differ. -/
theorem weton_add_400 (d m y : Int) (hy : 0 ≤ y) :
    weton d m (y + 400) = weton d m y + 77 ∧
    (0 ≤ d → 0 ≤ m →
      dowIndex d m (y + 400) = dowIndex d m y ∧
      pasaranIndex d m (y + 400) = (pasaranIndex d m y + 2) % 5 ∧
      pasaranIndex d m (y + 400) ≠ pasaranIndex d m y ∧
      (dowIndex d m (y + 400), pasaranIndex d m (y + 400))
        ≠ (dowIndex d m y, pasaranIndex d m y)) := by
  have h77 : weton d m (y + 400) = weton d m y + 77 := by
    obtain ⟨e1, e2, e3⟩ := year_add_400 y hy
    rw [weton_unfold, weton_unfold, e1, e2, e3]
    split_ifs <;> omega
  refine ⟨h77, ?_⟩
  intro hd hm
  have hw := weton_ge_of_nonneg d m y hd hm hy
  obtain ⟨a7, a5, _⟩ := subscripts_of_nonneg (weton d m y) (by omega)
  obtain ⟨b7, b5, _⟩ := subscripts_of_nonneg (weton d m (y + 400)) (by omega)
  unfold dowIndex pasaranIndex
  rw [a7, a5, b7, b5, h77]
  have hp : (weton d m y + 77) % 5 ≠ weton d m y % 5 := by omega
  refine ⟨by omega, by omega, hp, ?_⟩
  intro he
  exact hp (congrArg Prod.snd he)

/-- C12 at the arguments (17, 8, 1945): the year 2345 gives `w = 1425`, the
same weekday subscript 4 and the pasaran subscript 0 instead of 3. -/
theorem weton_add_400_witness :
    (0 : Int) ≤ 1945 ∧ weton 17 8 (1945 + 400) = weton 17 8 1945 + 77 ∧
    dowIndex 17 8 (1945 + 400) = dowIndex 17 8 1945 ∧
    pasaranIndex 17 8 (1945 + 400) = (pasaranIndex 17 8 1945 + 2) % 5 ∧
    weton 17 8 (1945 + 400) = 1425 ∧
    dowIndex 17 8 (1945 + 400) = 4 ∧ dowIndex 17 8 1945 = 4 ∧
    pasaranIndex 17 8 (1945 + 400) = 0 ∧ pasaranIndex 17 8 1945 = 3 :=
  ⟨by decide, (weton_add_400 17 8 1945 (by decide)).1,
    ((weton_add_400 17 8 1945 (by decide)).2 (by decide) (by decide)).1,
    ((weton_add_400 17 8 1945 (by decide)).2 (by decide) (by decide)).2.1,
    by decide, by decide, by decide, by decide, by decide⟩

end Weton
